import Mathlib

/-!
Verification of the metadata query-resolution engine of the
`django-lass-metadata` repository, shallowly embedded in Lean 4.

The embedding follows the Python source:
  * `metadata/query.py`   — `MetadataQuery` (query types, `join`,
    `satisfied_by`, `initial_state`, `cache_key`, construction),
  * `metadata/hooks.py`   — `run_query`, the default hook chain
    (`metadata_from_strand_sets`, `metadata_from_parent`,
    `metadata_from_package`, `metadata_from_default`,
    `metadata_from_cache`), `handle_set`, `get_active_metadata`,
  * `metadata/mixins/metadata_subject.py` — the `MetadataView.StrandView`
    dictionary view (`__contains__`, `__getitem__`) and
    `default_inherit_function`.

Conventions of the embedding:
  * dates (`datetime`) are abstracted as natural numbers;
  * Python's dynamically typed values flowing through the engine are the
    inductive `PyVal`; Python lists are `PyVal.plist`, Python sets are
    `PyVal.pset` (a `Finset`), `None` is `PyVal.pynone`;
  * exceptions become `Except` errors: `HookFailureError`,
    `QueryFailureError`, `TypeError` are the `RunError` constructors, and
    view-level `KeyError` / `NotImplementedError` are `ViewError`
    constructors;
  * Python's unbounded recursion through parent / package subjects is
    modelled with an explicit fuel argument; exhaustion is a dedicated
    error constructor (`depthExhausted`) that stands for divergence and is
    unreachable when the fuel dominates the subject-graph depth (subjects
    here form finite trees, so a `sizeOf`-based bound suffices).
-/

/-- A Python value as it flows through the metadata engine. -/
inductive PyVal where
  /-- Python `None`. -/
  | pynone : PyVal
  /-- A Python string (metadata values are text). -/
  | pstr : String → PyVal
  /-- A Python list of metadata values. -/
  | plist : List String → PyVal
  /-- A Python set of metadata values. -/
  | pset : Finset String → PyVal
  /-- A Python bool. -/
  | pbool : Bool → PyVal
  /-- A Python int. -/
  | pint : Nat → PyVal
deriving DecidableEq

/-- Python truthiness, as used by `or`. -/
def PyVal.truthy : PyVal → Bool
  | .pynone => false
  | .pstr s => s ≠ ""
  | .plist l => l ≠ []
  | .pset s => s ≠ ∅
  | .pbool b => b
  | .pint n => n ≠ 0

/-- Python's `old | new`: set union on sets, bitwise-or on ints and bools,
`TypeError` (`none`) on lists, strings, `None` and mixed operands. -/
def pyOr : PyVal → PyVal → Option PyVal
  | .pset a, .pset b => some (.pset (a ∪ b))
  | .pint a, .pint b => some (.pint (Nat.lor a b))
  | .pbool a, .pbool b => some (.pbool (a || b))
  | _, _ => none

/-- Python's `old or new`: returns `old` when truthy, else `new`. -/
def pyLogicalOr (a b : PyVal) : PyVal :=
  if a.truthy then a else b

/-- Python's `old + new`: addition on ints (bools add as 0/1),
concatenation on strings and lists, `TypeError` (`none`) otherwise. -/
def pyAdd : PyVal → PyVal → Option PyVal
  | .pint a, .pint b => some (.pint (a + b))
  | .pbool a, .pbool b => some (.pint (a.toNat + b.toNat))
  | .pstr a, .pstr b => some (.pstr (a ++ b))
  | .plist a, .plist b => some (.plist (a ++ b))
  | _, _ => none

/-- Python's `max(1, s)` as used on COUNT sums; the engine only reaches it
with int operands, any other operand is left as an error. -/
def pyMax1 : PyVal → Option PyVal
  | .pint n => some (.pint (max 1 n))
  | _ => none

/-- A metadata key (`metadata/models/key.py`): identity, name,
per-key multiplicity flag and cache-duration hint. -/
structure MetadataKey where
  id : Nat
  name : String
  allow_multiple : Bool
  cache_duration : Nat
deriving DecidableEq

/-- The `key` argument accepted by `MetadataQuery.__init__`: a key
instance, a name string, or a primary key. -/
inductive KeyRef where
  | byKey : MetadataKey → KeyRef
  | byName : String → KeyRef
  | byId : Nat → KeyRef
deriving DecidableEq

/-- Modelled from the spec: the `MetadataKey` registry lookup
`get(key_or_name_or_id) -> MetadataKey` (the `Type.get` classmethod lives
in `metadata/models/type.py`, which is absent from `src/`); it resolves a
key instance, a name string, or a primary key against the registry and
fails (`DoesNotExist`) when the name or id is absent. -/
def MetadataKey.get (reg : List MetadataKey) : KeyRef → Option MetadataKey
  | .byKey k => some k
  | .byName n => reg.find? (fun k => k.name = n)
  | .byId i => reg.find? (fun k => k.id = i)

/-- One metadata entry (`metadata/models/generic.py`): key reference,
value payload and effective range (`effective_to = none` means "still in
effect").  Approval filtering is applied by the entry store before the
engine sees the records (spec section 6). -/
structure Entry where
  keyId : Nat
  value : String
  effective_from : Nat
  effective_to : Option Nat
deriving DecidableEq

/-- A strand's related set: the entries attached to the subject
(`element = subject`) together with the elementless default entries of the
strand's model table (`element is null`), which
`metadata_from_default` queries via `strand_set.model.objects`. -/
structure StrandSet where
  entries : List Entry
  modelDefaults : List Entry
deriving DecidableEq

mutual
/-- A metadata subject: class name and id (used by `cache_key`), the
strand map (`metadata_strands()`; `none` models a subject without the
method), the parent capability (`none` = no `metadata_parent` attribute,
`some none` = `metadata_parent()` returns `None`, `some (some p)` = a
parent) and the package capability (`none` = no `packages` attribute,
`some none` = `packages` is `None`, `some (some l)` = attachment list). -/
inductive Subject where
  | mk : String → Nat → Option (List (String × StrandSet)) →
      Option (Option Subject) → Option (Option (List PackageEntry)) → Subject

/-- A package attachment (`metadata/models/package.py`, `PackageEntry`):
an effective range and the attached package, itself a subject. -/
inductive PackageEntry where
  | mk : Nat → Option Nat → Subject → PackageEntry
end

/-- Class name of a subject. -/
def Subject.cls : Subject → String
  | .mk c _ _ _ _ => c

/-- Primary key of a subject. -/
def Subject.sid : Subject → Nat
  | .mk _ i _ _ _ => i

/-- The subject's `metadata_strands()` capability. -/
def Subject.strands : Subject → Option (List (String × StrandSet))
  | .mk _ _ s _ _ => s

/-- The subject's `metadata_parent` capability. -/
def Subject.parent : Subject → Option (Option Subject)
  | .mk _ _ _ p _ => p

/-- The subject's `packages` capability. -/
def Subject.packages : Subject → Option (Option (List PackageEntry))
  | .mk _ _ _ _ p => p

/-- Effective-range start of a package attachment. -/
def PackageEntry.effective_from : PackageEntry → Nat
  | .mk f _ _ => f

/-- Effective-range end of a package attachment. -/
def PackageEntry.effective_to : PackageEntry → Option Nat
  | .mk _ t _ => t

/-- The attached package of a package attachment. -/
def PackageEntry.package : PackageEntry → Subject
  | .mk _ _ p => p

/-- The three query types of `metadata/query.py` (`VALUE = 0`,
`EXISTS = 1`, `COUNT = 2`). -/
inductive QueryType where
  | VALUE
  | EXISTS
  | COUNT
deriving DecidableEq

/-- The integer encoding of a query type, as used by `repr` in
`cache_key`. -/
def QueryType.code : QueryType → Nat
  | .VALUE => 0
  | .EXISTS => 1
  | .COUNT => 2

/-- A metadata query (`metadata/query.py`, `MetadataQuery`): subject,
as-of date, resolved key, strand name and query type.  The source stores
the raw `_date` and falls back to the construction time when it is `None`;
the embedding always carries an explicit date, as the strand view does. -/
structure MetadataQuery where
  subject : Subject
  date : Nat
  key : MetadataKey
  strand : String
  query_type : QueryType

/-- Construction-time errors of `MetadataQuery.__init__`. -/
inductive InitError where
  /-- `MetadataKey.DoesNotExist` — the requested key is not in the
  registry (the spec's `KeyNotFoundError`). -/
  | keyNotFound
deriving DecidableEq

/-- `MetadataQuery.__init__`: validates the query type (always valid for
the enumerated `QueryType`) and resolves the key through
`MetadataKey.get`, failing with `DoesNotExist` before anything else can
run. -/
def MetadataQuery.make (reg : List MetadataKey) (subject : Subject)
    (date : Nat) (key : KeyRef) (strand : String)
    (query_type : QueryType) : Except InitError MetadataQuery :=
  match MetadataKey.get reg key with
  | none => .error .keyNotFound
  | some k => .ok ⟨subject, date, k, strand, query_type⟩

/-- `INITIAL_QUERY_STATE` / `MetadataQuery.initial_state`. -/
def MetadataQuery.initial_state (q : MetadataQuery) : PyVal :=
  match q.query_type with
  | .VALUE => .pynone
  | .EXISTS => .pbool false
  | .COUNT => .pint 0

/-- `MetadataQuery.join`: combine two successful query runnings; the old
state takes precedence.  `none` models a raised `TypeError`. -/
def MetadataQuery.join (q : MetadataQuery) (old new : PyVal) : Option PyVal :=
  match q.query_type with
  | .VALUE => if q.key.allow_multiple then pyOr old new else some old
  | .EXISTS => some (pyLogicalOr old new)
  | .COUNT =>
      (pyAdd old new).bind fun s =>
        if q.key.allow_multiple then some s else pyMax1 s

/-- `MetadataQuery.satisfied_by`: whether no more hook processing is
needed for a valid answer. -/
def MetadataQuery.satisfied_by (q : MetadataQuery) (result : PyVal) : Bool :=
  if q.query_type = .VALUE ∧ q.key.allow_multiple = false then
    true
  else if q.query_type = .EXISTS ∧ result = .pbool true then
    true
  else
    false

/-- `MetadataQuery.replace(subject=...)`: the only replacement the hooks
perform.  The source rebuilds the query through `__init__`, which
revalidates the (already resolved) key and query type, so this is a plain
field update. -/
def MetadataQuery.replaceSubject (q : MetadataQuery) (s : Subject) :
    MetadataQuery :=
  { q with subject := s }

/-- Python `repr` of a plain string without quote or escape characters
(the only strings the embedding renders). -/
def pyReprStr (s : String) : String :=
  "'" ++ s ++ "'"

/-- Python `repr` of a subject's class (`<class 'Name'>`). -/
def pyReprClass (c : String) : String :=
  "<class " ++ pyReprStr c ++ ">"

/-- Rendering of the query's raw date in `cache_key`; dates are abstract
naturals here, rendered injectively. -/
def pyReprDate (d : Nat) : String :=
  "datetime(" ++ toString d ++ ")"

/-- Python `repr` of a `MetadataKey` model instance. -/
def pyReprKey (k : MetadataKey) : String :=
  "<MetadataKey: " ++ k.name ++ ">"

/-- One character of `str.replace(pat, rep)` for the single-character
patterns used by `cache_key`. -/
def pyReplaceChar (pat : Char) (rep : List Char) (c : Char) : List Char :=
  if c = pat then rep else [c]

/-- `s.replace(pat, rep)` for a single-character pattern. -/
def pyReplace (s : String) (pat : Char) (rep : List Char) : String :=
  ⟨(s.toList.map (pyReplaceChar pat rep)).flatten⟩

/-- `MetadataQuery.cache_key`: `'-'.join(repr(component) for ...)`
followed by `.replace('_', '__').replace(' ', '_')` on the joined
string. -/
def MetadataQuery.cache_key (q : MetadataQuery) : String :=
  pyReplace
    (pyReplace
      (String.intercalate "-"
        [pyReprClass q.subject.cls,
         toString q.subject.sid,
         pyReprDate q.date,
         pyReprStr q.strand,
         pyReprKey q.key,
         toString q.query_type.code])
      '_' ['_', '_'])
    ' ' ['_']

/-- Errors of the hook-running layer (`metadata/hooks.py`): a hook's
local `HookFailureError`, the runner's `QueryFailureError`, a Python
`TypeError` raised by `join` on unsupported operands, and the fuel
marker standing for divergence of the unbounded Python recursion. -/
inductive RunError where
  | hookFailure
  | queryFailure
  | typeError
  | depthExhausted
deriving DecidableEq

deriving instance DecidableEq for Except

/-- The cache store: an association list keyed by cache-key strings
(newest binding first, as an overwrite-on-set store). -/
def Cache := List (String × PyVal)

instance : DecidableEq Cache := by
  unfold Cache
  infer_instance

/-- `cache.set(key, value, duration)`; the duration (TTL) is accepted but
expiry is not modelled, since query dates — not wall-clock time — drive
the engine. -/
def cacheSet (c : Cache) (k : String) (v : PyVal) (_duration : Nat) : Cache :=
  (k, v) :: c

/-- `cache.get(key)`: the most recent binding, a miss is `none`. -/
def cacheGet (c : Cache) (k : String) : Option PyVal :=
  (c.find? (fun p => p.1 = k)).map (fun p => p.2)

/-- A hook as `run_query` consumes it: a callable on the query, here also
threading the cache it may read or (through nested runs) write. -/
def HookFn := MetadataQuery → Cache → Except RunError (PyVal × Cache)

/-- The loop body of `run_query`: try each hook, catch only
`HookFailureError`, join successive successes, stop early when the query
is satisfied; with no success left over, raise `QueryFailureError`,
otherwise cache and return the result. -/
def runLoop (q : MetadataQuery) (hooks : List HookFn) (c : Cache)
    (result : PyVal) (awaiting : Bool) : Except RunError (PyVal × Cache) :=
  match hooks with
  | [] =>
      if awaiting then
        .error .queryFailure
      else
        .ok (result, cacheSet c q.cache_key result q.key.cache_duration)
  | hook :: rest =>
      match hook q c with
      | .error .hookFailure => runLoop q rest c result awaiting
      | .error e => .error e
      | .ok (this_result, c') =>
          match (if awaiting then some this_result else q.join result this_result) with
          | none => .error .typeError
          | some r' =>
              if q.satisfied_by r' then
                .ok (r', cacheSet c' q.cache_key r' q.key.cache_duration)
              else
                runLoop q rest c' r' false

/-- `run_query(query, hooks)` for an explicit hook list. -/
def run_query (q : MetadataQuery) (hooks : List HookFn) (c : Cache) :
    Except RunError (PyVal × Cache) :=
  runLoop q hooks c q.initial_state true

/-- `metadata_from_cache`: fulfil the query from the cache; a stored
`None` is indistinguishable from a miss (`if val is None`). -/
def metadata_from_cache : HookFn := fun q c =>
  match cacheGet c q.cache_key with
  | none => .error .hookFailure
  | some v => if v = .pynone then .error .hookFailure else .ok (v, c)

/-- `get_strand_set`: the related set for the query's strand, failing
with `HookFailureError` when the subject has no `metadata_strands` or the
strand is absent. -/
def get_strand_set (q : MetadataQuery) : Except RunError StrandSet :=
  match q.subject.strands with
  | none => .error .hookFailure
  | some strand_sets =>
      match strand_sets.lookup q.strand with
      | none => .error .hookFailure
      | some strand_set => .ok strand_set

/-- Modelled from the spec: `EffectiveRangeMixin`'s `at(date)` queryset
method (the mixin lives in the external `lass_utils` package, outside
`src/`): the entries whose effective range covers the date —
`effective_from ≤ date` and no `effective_to` or `date < effective_to` —
with approval already applied by the store (spec sections 3 and 6). -/
def entriesAt (entries : List Entry) (date : Nat) : List Entry :=
  entries.filter fun e =>
    decide (e.effective_from ≤ date) &&
      (match e.effective_to with
       | none => true
       | some t => decide (date < t))

/-- `get_active_metadata`: `strand_set.at(date).filter(key__pk=key.id)`. -/
def get_active_metadata (strand_set : List Entry) (key : MetadataKey)
    (date : Nat) : List Entry :=
  (entriesAt strand_set date).filter fun e => e.keyId = key.id

/-- One step of the `latest()` maximum scan. -/
def latestStep (acc : Option Entry) (e : Entry) : Option Entry :=
  match acc with
  | none => some e
  | some a => if a.effective_from < e.effective_from then some e else some a

/-- Modelled from the spec: Django's `queryset.latest()` under the
`get_latest_by` of `EffectiveRangeMixin.Meta` (outside `src/`): the entry
with the largest `effective_from` ("latest wins"); `none` on an empty
set (`DoesNotExist`).  Ties are broken towards the earlier record, the
source leaves them unspecified. -/
def latestEntry (entries : List Entry) : Option Entry :=
  entries.foldl latestStep none

/-- `handle_set`: multiplicity-aware reduction of an active metadata set.
For VALUE on a multi-value key the source builds the Python list of
values; for VALUE on a single-value key it takes `latest().value`,
failing with `HookFailureError` on `DoesNotExist`; COUNT takes the size
(clamped below by 1 for single-value keys); EXISTS takes non-emptiness. -/
def handle_set (metadata : List Entry) (allow_multiple : Bool)
    (query_type : QueryType) : Except RunError PyVal :=
  match query_type with
  | .VALUE =>
      if allow_multiple then
        .ok (.plist (metadata.map Entry.value))
      else
        match latestEntry metadata with
        | some e => .ok (.pstr e.value)
        | none => .error .hookFailure
  | .COUNT =>
      .ok (.pint (if allow_multiple then metadata.length else max 1 metadata.length))
  | .EXISTS =>
      .ok (.pbool (decide (metadata ≠ [])))

/-- `metadata_from_strand_sets`: answer the query from the subject's own
strand sets. -/
def metadata_from_strand_sets : HookFn := fun q c =>
  match get_strand_set q with
  | .error e => .error e
  | .ok strand_set =>
      match handle_set (get_active_metadata strand_set.entries q.key q.date)
          q.key.allow_multiple q.query_type with
      | .error e => .error e
      | .ok v => .ok (v, c)

/-- `metadata_from_default`: answer the query from the strand model's
elementless (default) entries. -/
def metadata_from_default : HookFn := fun q c =>
  match get_strand_set q with
  | .error e => .error e
  | .ok strand_set =>
      match handle_set
          (get_active_metadata strand_set.modelDefaults q.key q.date)
          q.key.allow_multiple q.query_type with
      | .error e => .error e
      | .ok v => .ok (v, c)

/-- Modelled from the spec: `packages().at(query.date)` (the
`EffectiveRangeMixin` manager, outside `src/`): the attachments whose
effective range covers the query date, in attachment order. -/
def attachmentsAt (l : List PackageEntry) (date : Nat) : List PackageEntry :=
  l.filter fun e =>
    decide (e.effective_from ≤ date) &&
      (match e.effective_to with
       | none => true
       | some t => decide (date < t))

/-- `metadata_from_parent`: recursively run the full default chain
against the subject's parent.  The nested `run_query(query.replace(...))`
uses the default hook list, passed here as `next` (with `none` standing
for exhausted recursion fuel).  A failure of the nested `run_query`
raises `QueryFailureError`, which this hook does not catch (contrary to
its docstring, which promises `HookFailureError` on failure). -/
def metadata_from_parent (next : Option (List HookFn)) : HookFn := fun q c =>
  match q.subject.parent with
  | none => .error .hookFailure
  | some none => .error .hookFailure
  | some (some parent) =>
      match next with
      | none => .error .depthExhausted
      | some hooks => run_query (q.replaceSubject parent) hooks c

/-- The attachment loop of `metadata_from_package`: each nested
`run_query` uses the default hook list (`next`); the
`except HookFailureError: continue` clause catches only
`HookFailureError`, so a nested `QueryFailureError` propagates instead of
moving to the next attachment; when no attachment is left, fail with
`HookFailureError`. -/
def packageLoop (next : Option (List HookFn)) (l : List PackageEntry)
    (q : MetadataQuery) (c : Cache) : Except RunError (PyVal × Cache) :=
  match l with
  | [] => .error .hookFailure
  | entry :: rest =>
      match next with
      | none => .error .depthExhausted
      | some hooks =>
          match run_query (q.replaceSubject entry.package) hooks c with
          | .error .hookFailure => packageLoop next rest q c
          | .error e => .error e
          | .ok r => .ok r

/-- `metadata_from_package`: try each attachment active at the query
date, in order, recursively running the full default chain against its
package. -/
def metadata_from_package (next : Option (List HookFn)) : HookFn := fun q c =>
  match q.subject.packages with
  | none => .error .hookFailure
  | some none => .error .hookFailure
  | some (some entries) => packageLoop next (attachmentsAt entries q.date) q c

/-- `DEFAULT_HOOKS`: the default hook list; `metadata_from_cache` is
commented out in the source (a `TODO`), so the chain is strand sets,
parent, package, default.  The fuel bounds the recursion depth through
parents and packages, which is unbounded in the Python source. -/
def DEFAULT_HOOKS : Nat → List HookFn
  | 0 =>
      [metadata_from_strand_sets,
       metadata_from_parent none,
       metadata_from_package none,
       metadata_from_default]
  | fuel + 1 =>
      [metadata_from_strand_sets,
       metadata_from_parent (some (DEFAULT_HOOKS fuel)),
       metadata_from_package (some (DEFAULT_HOOKS fuel)),
       metadata_from_default]

mutual
/-- Depth of a subject's parent / package graph (a computable bound used
to supply sufficient fuel to the recursion). -/
def Subject.depth : Subject → Nat
  | .mk _ _ _ parent packages =>
      1 + max
        (match parent with
         | some (some p) => Subject.depth p
         | _ => 0)
        (match packages with
         | some (some l) => PackageEntry.depthList l
         | _ => 0)

/-- Depth bound of an attachment list. -/
def PackageEntry.depthList : List PackageEntry → Nat
  | [] => 0
  | e :: rest => max (PackageEntry.depth e) (PackageEntry.depthList rest)

/-- Depth bound of one attachment. -/
def PackageEntry.depth : PackageEntry → Nat
  | .mk _ _ s => Subject.depth s
end

/-- `run_query(query)` with the default hooks, supplied with enough fuel
for the finite subject tree at hand (the depth bound dominates the parent
and package recursion). -/
def runQueryDefault (q : MetadataQuery) (c : Cache) :
    Except RunError (PyVal × Cache) :=
  run_query q (DEFAULT_HOOKS q.subject.depth) c

/-- The result component of a run, discarding the final cache state. -/
def runResult (r : Except RunError (PyVal × Cache)) : Except RunError PyVal :=
  r.map Prod.fst

/-- Errors of the dictionary-view layer
(`metadata/mixins/metadata_subject.py`): Python `KeyError` (unknown key,
missing strand, or no resolvable value), `NotImplementedError`
(`metadata_strands` not provided), and the fuel marker for divergence of
the parent recursion. -/
inductive ViewError where
  | keyError
  | notImplementedError
  | exhausted
deriving DecidableEq

/-- The active-entry filter of `StrandView.__contains__` and
`StrandView.__getitem__`:
`strand_data.filter(key__pk=key.id, effective_from__lte=date)` followed by
`.exclude(effective_to__lte=date)` (a null `effective_to` survives the
exclusion). -/
def viewActive (entries : List Entry) (key : MetadataKey) (date : Nat) :
    List Entry :=
  (entries.filter fun e =>
      decide (e.keyId = key.id) && decide (e.effective_from ≤ date)).filter
    fun e =>
      !(match e.effective_to with
        | some t => decide (t ≤ date)
        | none => false)

/-- Insertion step of the `order_by('-effective_from')` ordering. -/
def insertByFromDesc (e : Entry) : List Entry → List Entry
  | [] => [e]
  | x :: xs =>
      if x.effective_from ≤ e.effective_from then e :: x :: xs
      else x :: insertByFromDesc e xs

/-- `order_by('-effective_from')`: newest `effective_from` first (the
database leaves ties unspecified; this sort keeps them adjacent). -/
def sortByFromDesc : List Entry → List Entry
  | [] => []
  | x :: xs => insertByFromDesc x (sortByFromDesc xs)

/-- `default_inherit_function` with `peek=False`: delegate to the
parent's strand view (`metadata_parent().metadata_at(date)[strand][key]`;
the strand and `metadata_strands` checks of that access coincide with the
checks performed inside the recursive view, passed here as
`parent_getitem`, with `none` standing for exhausted recursion fuel);
with no usable parent, the key is re-resolved and a multi-value key
inherits the empty list while a single-value key raises `KeyError`. -/
def inherit_value (parent_getitem : Option (Subject → Except ViewError PyVal))
    (reg : List MetadataKey) (s : Subject) (key : KeyRef) :
    Except ViewError PyVal :=
  match s.parent with
  | some (some parent) =>
      match parent_getitem with
      | none => .error .exhausted
      | some g => g parent
  | _ =>
      match MetadataKey.get reg key with
      | none => .error .keyError
      | some key_obj =>
          if key_obj.allow_multiple then .ok (.plist [])
          else .error .keyError

/-- `default_inherit_function` with `peek=True`: membership on the
parent's strand view; `False` with no usable parent. -/
def inherit_peek (parent_contains : Option (Subject → Except ViewError Bool))
    (s : Subject) : Except ViewError Bool :=
  match s.parent with
  | some (some parent) =>
      match parent_contains with
      | none => .error .exhausted
      | some g => g parent
  | _ => .ok false

/-- The body of `MetadataView.StrandView.__getitem__` with the inherit
outcome passed in: the active entries for the key at the view's date,
newest first; for a multi-value key, the list of own values extended with
the inherited ones; for a single-value key, `active.latest().value`,
falling back to the inherited value on `DoesNotExist`.  An unknown key
raises `KeyError`. -/
def StrandView.getitemBody (reg : List MetadataKey) (s : Subject)
    (date : Nat) (strand : String) (key : KeyRef)
    (inherited : Except ViewError PyVal) : Except ViewError PyVal :=
  match s.strands with
  | none => .error .notImplementedError
  | some strand_sets =>
      match strand_sets.lookup strand with
      | none => .error .keyError
      | some strand_data =>
          match MetadataKey.get reg key with
          | none => .error .keyError
          | some key_obj =>
              if key_obj.allow_multiple then
                match inherited with
                | .error e => .error e
                | .ok (.plist inh) =>
                    .ok (.plist
                      ((sortByFromDesc (viewActive strand_data.entries key_obj date)).map
                          Entry.value ++ inh))
                | .ok _ =>
                    -- unreachable: the inherit chain yields a Python list
                    -- for a multi-value key
                    .error .notImplementedError
              else
                match latestEntry
                    (sortByFromDesc (viewActive strand_data.entries key_obj date)) with
                | some e => .ok (.pstr e.value)
                | none => inherited

/-- The body of `MetadataView.StrandView.__contains__` with the peek
outcome passed in: `False` for an unknown key, `True` for a multi-value
key, otherwise the exists-check on the active entries with fallback to
the inherit function in peek mode. -/
def StrandView.containsBody (reg : List MetadataKey) (s : Subject)
    (date : Nat) (strand : String) (key : KeyRef)
    (peeked : Except ViewError Bool) : Except ViewError Bool :=
  match s.strands with
  | none => .error .notImplementedError
  | some strand_sets =>
      match strand_sets.lookup strand with
      | none => .error .keyError
      | some strand_data =>
          match MetadataKey.get reg key with
          | none => .ok false
          | some key_obj =>
              if key_obj.allow_multiple then .ok true
              else if viewActive strand_data.entries key_obj date ≠ [] then
                .ok true
              else peeked

/-- `MetadataView.StrandView.__getitem__`, with fuel bounding the parent
recursion of the inherit chain. -/
def StrandView.getitem : Nat → List MetadataKey → Subject → Nat → String →
    KeyRef → Except ViewError PyVal
  | 0, reg, s, date, strand, key =>
      StrandView.getitemBody reg s date strand key
        (inherit_value none reg s key)
  | fuel + 1, reg, s, date, strand, key =>
      StrandView.getitemBody reg s date strand key
        (inherit_value
          (some fun parent => StrandView.getitem fuel reg parent date strand key)
          reg s key)

/-- `MetadataView.StrandView.__contains__`, with fuel bounding the parent
recursion of the inherit chain. -/
def StrandView.contains : Nat → List MetadataKey → Subject → Nat → String →
    KeyRef → Except ViewError Bool
  | 0, reg, s, date, strand, key =>
      StrandView.containsBody reg s date strand key (inherit_peek none s)
  | fuel + 1, reg, s, date, strand, key =>
      StrandView.containsBody reg s date strand key
        (inherit_peek
          (some fun parent => StrandView.contains fuel reg parent date strand key)
          s)

/-- `subject.metadata_at(date)[strand][key]`: the two-level view access,
validating the strand (`MetadataView.__getitem__`) and then reading the
strand view, with fuel covering the parent chain. -/
def MetadataView.getitem (reg : List MetadataKey) (s : Subject) (date : Nat)
    (strand : String) (key : KeyRef) : Except ViewError PyVal :=
  match s.strands with
  | none => .error .notImplementedError
  | some strand_sets =>
      match strand_sets.lookup strand with
      | none => .error .keyError
      | some _ => StrandView.getitem s.depth reg s date strand key

/-- `key in subject.metadata_at(date)[strand]`: the two-level membership
test. -/
def MetadataView.contains (reg : List MetadataKey) (s : Subject) (date : Nat)
    (strand : String) (key : KeyRef) : Except ViewError Bool :=
  match s.strands with
  | none => .error .notImplementedError
  | some strand_sets =>
      match strand_sets.lookup strand with
      | none => .error .keyError
      | some _ => StrandView.contains s.depth reg s date strand key

/-!  ### Helper lemmas  -/

theorem latestStep_some (a : Entry) (l : List Entry) :
    ∃ e, l.foldl latestStep (some a) = some e := by
  induction l generalizing a with
  | nil => exact ⟨a, rfl⟩
  | cons x xs ih =>
      simp only [List.foldl_cons, latestStep]
      by_cases h : a.effective_from < x.effective_from
      · simpa [h] using ih x
      · simpa [h] using ih a

theorem latestEntry_eq_none_iff (l : List Entry) :
    latestEntry l = none ↔ l = [] := by
  cases l with
  | nil => simp [latestEntry]
  | cons x xs =>
      simp only [latestEntry, List.foldl_cons, latestStep]
      obtain ⟨e, he⟩ := latestStep_some x xs
      simp [he]

theorem latest_foldl_max (l : List Entry) (e : Entry) :
    ∀ a : Entry,
      (∀ x ∈ l, x = e ∨ x.effective_from < e.effective_from) →
      (a = e ∨ (a.effective_from < e.effective_from ∧ e ∈ l)) →
      l.foldl latestStep (some a) = some e := by
  induction l with
  | nil =>
      intro a _ hinv
      rcases hinv with h | ⟨_, h⟩
      · simp [h]
      · cases h
  | cons x xs ih =>
      intro a hall hinv
      have hx := hall x (List.mem_cons_self x xs)
      have hall' : ∀ y ∈ xs, y = e ∨ y.effective_from < e.effective_from :=
        fun y hy => hall y (List.mem_cons_of_mem x hy)
      simp only [List.foldl_cons, latestStep]
      rcases hx with hx | hx
      · subst hx
        by_cases hlt : a.effective_from < x.effective_from
        · simp only [hlt, if_true]
          exact ih x hall' (Or.inl rfl)
        · simp only [hlt, if_false]
          rcases hinv with h | ⟨hfrom, _⟩
          · exact ih a hall' (Or.inl h)
          · exact absurd hfrom hlt
      · have hxe : x ≠ e := by
          intro hcon
          rw [hcon] at hx
          exact absurd hx (lt_irrefl _)
        by_cases hlt : a.effective_from < x.effective_from
        · simp only [hlt, if_true]
          refine ih x hall' (Or.inr ⟨hx, ?_⟩)
          rcases hinv with h | ⟨hfrom, hmem⟩
          · subst h
            exact absurd (lt_trans hlt hx) (lt_irrefl _)
          · rcases List.mem_cons.mp hmem with h | h
            · exact absurd h.symm hxe
            · exact h
        · simp only [hlt, if_false]
          rcases hinv with h | ⟨hfrom, hmem⟩
          · exact ih a hall' (Or.inl h)
          · refine ih a hall' (Or.inr ⟨hfrom, ?_⟩)
            rcases List.mem_cons.mp hmem with h | h
            · exact absurd h.symm hxe
            · exact h

theorem latestEntry_eq_max (l : List Entry) (e : Entry) (hmem : e ∈ l)
    (hmax : ∀ x ∈ l, x = e ∨ x.effective_from < e.effective_from) :
    latestEntry l = some e := by
  cases l with
  | nil => cases hmem
  | cons x xs =>
      simp only [latestEntry, List.foldl_cons, latestStep]
      have hx := hmax x (List.mem_cons_self x xs)
      have hall' : ∀ y ∈ xs, y = e ∨ y.effective_from < e.effective_from :=
        fun y hy => hmax y (List.mem_cons_of_mem x hy)
      rcases hx with hx | hx
      · exact latest_foldl_max xs e x hall' (Or.inl hx)
      · have hxe : x ≠ e := by
          intro hcon
          rw [hcon] at hx
          exact absurd hx (lt_irrefl _)
        have hmem' : e ∈ xs := by
          rcases List.mem_cons.mp hmem with h | h
          · exact absurd h.symm hxe
          · exact h
        exact latest_foldl_max xs e x hall' (Or.inr ⟨hx, hmem'⟩)

theorem mem_insertByFromDesc (a e : Entry) (l : List Entry) :
    a ∈ insertByFromDesc e l ↔ a = e ∨ a ∈ l := by
  induction l with
  | nil => simp [insertByFromDesc]
  | cons x xs ih =>
      simp only [insertByFromDesc]
      by_cases h : x.effective_from ≤ e.effective_from
      · simp [h, List.mem_cons]
      · simp only [h, if_false, List.mem_cons, ih]
        tauto

theorem mem_sortByFromDesc (a : Entry) (l : List Entry) :
    a ∈ sortByFromDesc l ↔ a ∈ l := by
  induction l with
  | nil => simp [sortByFromDesc]
  | cons x xs ih =>
      simp only [sortByFromDesc, mem_insertByFromDesc, ih, List.mem_cons]

/-!  ### Shared concrete fixtures  -/

/-- A single-value test key. -/
def kSingle : MetadataKey := ⟨1, "single", false, 300⟩

/-- A multi-value test key. -/
def kMulti : MetadataKey := ⟨2, "multiple", true, 300⟩

/-- A test registry. -/
def regFix : List MetadataKey := [kSingle, kMulti]

/-- A bare subject with no capabilities (enough for `cache_key`). -/
def subjBare : Subject := Subject.mk "Thing" 1 none none none

/-!  ### Claim C5 — the `join` algebra  -/

/-- Counterexample to claim C5 as stated: for a multi-value VALUE query,
the non-failing hook answers the chain actually produces are Python
lists — `handle_set` builds `[x.value for x in metadata]` — and on that
concrete pair of answers `q.join old new` raises `TypeError` (`none`,
Python `list | list`) instead of being their union/concatenation. -/
theorem join_multi_value_answers_type_error :
    handle_set [⟨2, "elementA", 0, none⟩] true .VALUE =
      .ok (.plist ["elementA"]) ∧
    handle_set [⟨2, "elementB", 0, none⟩] true .VALUE =
      .ok (.plist ["elementB"]) ∧
    (⟨subjBare, 0, kMulti, "text", .VALUE⟩ : MetadataQuery).join
        (.plist ["elementA"]) (.plist ["elementB"]) = none := by
  refine ⟨?_, ?_, ?_⟩ <;> decide

/-- Claim C5 (amended): for every query `q`, `q.join old new` is: `old`
unchanged for VALUE on a single-value key; logical OR for EXISTS;
`old + new` for COUNT when multiple values are allowed, else
`max 1 (old + new)`; and for VALUE on a multi-value key `join` computes
Python `old | new`, which is the union when both answers are sets but
raises `TypeError` on the list answers that `handle_set` actually
produces — the claimed union/concatenation holds only for set
operands. -/
theorem join_follows_query_algebra (q : MetadataQuery) (old new : PyVal)
    (s1 s2 : Finset String) (b1 b2 : Bool) (n1 n2 : Nat) :
    (q.query_type = .VALUE → q.key.allow_multiple = false →
      q.join old new = some old) ∧
    (q.query_type = .VALUE → q.key.allow_multiple = true →
      q.join (.pset s1) (.pset s2) = some (.pset (s1 ∪ s2))) ∧
    (q.query_type = .VALUE → q.key.allow_multiple = true →
      ∀ l1 l2 : List String, q.join (.plist l1) (.plist l2) = none) ∧
    (q.query_type = .EXISTS →
      q.join (.pbool b1) (.pbool b2) = some (.pbool (b1 || b2))) ∧
    (q.query_type = .COUNT →
      q.join (.pint n1) (.pint n2) =
        some (.pint (if q.key.allow_multiple then n1 + n2 else max 1 (n1 + n2)))) := by
  refine ⟨?_, ?_, ?_, ?_, ?_⟩
  · intro hqt hmul
    simp [MetadataQuery.join, hqt, hmul]
  · intro hqt hmul
    simp [MetadataQuery.join, hqt, hmul, pyOr]
  · intro hqt hmul l1 l2
    simp [MetadataQuery.join, hqt, hmul, pyOr]
  · intro hqt
    cases b1 <;> simp [MetadataQuery.join, hqt, pyLogicalOr, PyVal.truthy]
  · intro hqt
    by_cases hmul : q.key.allow_multiple <;>
      simp [MetadataQuery.join, hqt, hmul, pyAdd, pyMax1]

/-- Witness for the amended C5 at concrete queries and answers. -/
theorem join_follows_query_algebra_witness :
    ((⟨subjBare, 0, kSingle, "text", .VALUE⟩ : MetadataQuery).join
        (.pstr "a") (.pstr "b") = some (.pstr "a")) ∧
    ((⟨subjBare, 0, kMulti, "text", .VALUE⟩ : MetadataQuery).join
        (.pset {"a"}) (.pset {"b"}) = some (.pset ({"a"} ∪ {"b"}))) ∧
    ((⟨subjBare, 0, kMulti, "text", .VALUE⟩ : MetadataQuery).join
        (.plist ["a"]) (.plist ["b"]) = none) ∧
    ((⟨subjBare, 0, kSingle, "text", .EXISTS⟩ : MetadataQuery).join
        (.pbool false) (.pbool true) = some (.pbool (false || true))) ∧
    ((⟨subjBare, 0, kSingle, "text", .COUNT⟩ : MetadataQuery).join
        (.pint 0) (.pint 0) = some (.pint (max 1 (0 + 0)))) := by
  refine ⟨?_, ?_, ?_, ?_, ?_⟩
  · exact (join_follows_query_algebra _ (.pstr "a") (.pstr "b") ∅ ∅ false false 0 0).1
      rfl rfl
  · exact (join_follows_query_algebra _ .pynone .pynone {"a"} {"b"} false false 0 0).2.1
      rfl rfl
  · exact (join_follows_query_algebra _ .pynone .pynone ∅ ∅ false false 0 0).2.2.1
      rfl rfl ["a"] ["b"]
  · exact (join_follows_query_algebra _ .pynone .pynone ∅ ∅ false true 0 0).2.2.2.1 rfl
  · have h := (join_follows_query_algebra
      (⟨subjBare, 0, kSingle, "text", .COUNT⟩ : MetadataQuery)
      .pynone .pynone ∅ ∅ false false 0 0).2.2.2.2 rfl
    simpa using h

/-!  ### Claim C9 — unknown keys fail at construction  -/

/-- Claim C9: constructing a query over a key reference that does not
name any key in the registry (by name or by primary key) fails with the
key-not-found error at construction time, before any hook could run, and
the error is returned rather than swallowed. -/
theorem unknown_key_fails_at_construction (reg : List MetadataKey)
    (subject : Subject) (date : Nat) (strand : String) (qt : QueryType)
    (name : String) (pk : Nat)
    (hname : ∀ k ∈ reg, k.name ≠ name) (hpk : ∀ k ∈ reg, k.id ≠ pk) :
    MetadataQuery.make reg subject date (.byName name) strand qt =
      .error .keyNotFound ∧
    MetadataQuery.make reg subject date (.byId pk) strand qt =
      .error .keyNotFound := by
  constructor
  · have : MetadataKey.get reg (.byName name) = none := by
      simp only [MetadataKey.get, List.find?_eq_none, decide_eq_true_eq]
      exact hname
    simp [MetadataQuery.make, this]
  · have : MetadataKey.get reg (.byId pk) = none := by
      simp only [MetadataKey.get, List.find?_eq_none, decide_eq_true_eq]
      exact hpk
    simp [MetadataQuery.make, this]

/-- Witness for C9: `notakey` names no key of the registry. -/
theorem unknown_key_fails_at_construction_witness :
    MetadataQuery.make regFix subjBare 0 (.byName "notakey") "text" .VALUE =
      .error .keyNotFound ∧
    MetadataQuery.make regFix subjBare 0 (.byId 99) "text" .VALUE =
      .error .keyNotFound :=
  unknown_key_fails_at_construction regFix subjBare 0 "text" .VALUE
    "notakey" 99 (by decide) (by decide)

/-!  ### Claim C8 — `cache_key` is not injective  -/

/-- Counterexample to claim C8: the queries for strand `a_b` and strand
`a  b` (two spaces) differ in their tuples but produce the same cache-key
string, because the `'_' → '__'` and `' ' → '_'` replacements run on the
joined string and collide. -/
theorem cache_key_collision :
    (⟨subjBare, 0, kSingle, "a_b", .VALUE⟩ : MetadataQuery).cache_key =
      (⟨subjBare, 0, kSingle, "a  b", .VALUE⟩ : MetadataQuery).cache_key ∧
    ("a_b" : String) ≠ "a  b" := by
  constructor
  · rfl
  · decide

/-- Claim C8 (amended): `cache_key` is a deterministic rendering of the
query tuple but is not injective — distinct tuples can produce the same
string, since the separator escaping happens after the components are
joined. -/
theorem cache_key_not_injective :
    ∃ q1 q2 : MetadataQuery,
      q1.strand ≠ q2.strand ∧ q1.cache_key = q2.cache_key := by
  refine ⟨⟨subjBare, 0, kSingle, "x_y", .VALUE⟩,
    ⟨subjBare, 0, kSingle, "x  y", .VALUE⟩, ?_, ?_⟩
  · decide
  · rfl

/-!  ### Claim C4 — `satisfied_by` and early termination  -/

theorem DEFAULT_HOOKS_head (fuel : Nat) :
    ∃ rest, DEFAULT_HOOKS fuel = metadata_from_strand_sets :: rest := by
  cases fuel <;> exact ⟨_, rfl⟩

theorem runLoop_head_satisfied (q : MetadataQuery) (h : HookFn)
    (rest : List HookFn) (c : Cache) (v : PyVal) (c' : Cache)
    (hh : h q c = .ok (v, c')) (hs : q.satisfied_by v = true) :
    runLoop q (h :: rest) c q.initial_state true =
      .ok (v, cacheSet c' q.cache_key v q.key.cache_duration) := by
  simp [runLoop, hh, hs]

/-- Claim C4: `satisfied_by` is true exactly for single-value VALUE
queries (immediately after any success) and for EXISTS queries once the
result is `True`, never for COUNT or multi-value VALUE queries; and when
the subject's own strand set answers such a query (an own active entry is
present), the run with the default chain equals the run with only the
own-strand-sets hook — parent, package and default sources are never
consulted. -/
theorem satisfied_by_short_circuits (q : MetadataQuery) (c : Cache)
    (fuel : Nat) (strand_sets : List (String × StrandSet)) (sd : StrandSet)
    (e : Entry) :
    (∀ r, q.satisfied_by r = true ↔
      ((q.query_type = .VALUE ∧ q.key.allow_multiple = false) ∨
        (q.query_type = .EXISTS ∧ r = .pbool true))) ∧
    (q.subject.strands = some strand_sets →
      strand_sets.lookup q.strand = some sd →
      e ∈ get_active_metadata sd.entries q.key q.date →
      ((q.query_type = .VALUE ∧ q.key.allow_multiple = false) ∨
        q.query_type = .EXISTS) →
      run_query q (DEFAULT_HOOKS fuel) c =
        run_query q [metadata_from_strand_sets] c) := by
  constructor
  · intro r
    unfold MetadataQuery.satisfied_by
    split_ifs with h1 h2
    · simp only [true_iff]
      exact Or.inl h1
    · simp only [true_iff]
      exact Or.inr h2
    · constructor
      · intro hfalse
        cases hfalse
      · intro hor
        rcases hor with h | h
        · exact absurd h h1
        · exact absurd h h2
  · intro hst hlk hmem hqt
    have hne : get_active_metadata sd.entries q.key q.date ≠ [] :=
      List.ne_nil_of_mem hmem
    have hexists : ∃ v, metadata_from_strand_sets q c = .ok (v, c) ∧
        q.satisfied_by v = true := by
      rcases hqt with ⟨hVAL, hmul⟩ | hEX
      · obtain ⟨e', he'⟩ : ∃ e',
            latestEntry (get_active_metadata sd.entries q.key q.date) = some e' := by
          cases hl : latestEntry (get_active_metadata sd.entries q.key q.date) with
          | none => exact absurd ((latestEntry_eq_none_iff _).mp hl) hne
          | some x => exact ⟨x, rfl⟩
        refine ⟨.pstr e'.value, ?_, ?_⟩
        · simp [metadata_from_strand_sets, get_strand_set, hst, hlk, handle_set,
            hVAL, hmul, he']
        · simp [MetadataQuery.satisfied_by, hVAL, hmul]
      · refine ⟨.pbool true, ?_, ?_⟩
        · have : decide (get_active_metadata sd.entries q.key q.date ≠ []) = true := by
            simpa using hne
          simp [metadata_from_strand_sets, get_strand_set, hst, hlk, handle_set,
            hEX, this]
        · simp [MetadataQuery.satisfied_by, hEX]
    obtain ⟨v, hv, hsat⟩ := hexists
    obtain ⟨rest, hhooks⟩ := DEFAULT_HOOKS_head fuel
    rw [hhooks]
    unfold run_query
    rw [runLoop_head_satisfied q _ rest c v c hv hsat,
      runLoop_head_satisfied q _ [] c v c hv hsat]

/-- An own active entry for the single-value key `single`. -/
def eOwn : Entry := ⟨1, "moof", 3, none⟩

/-- A subject owning `eOwn` in its `text` strand, with a parent and a
package attached (which the short-circuit makes irrelevant). -/
def subjOwn : Subject :=
  Subject.mk "Thing" 4 (some [("text", ⟨[eOwn], []⟩)])
    (some (some subjBare)) none

/-- Witness for C4: a single-value VALUE query against `subjOwn` resolves
identically with the full default chain and with the own-strands hook
alone. -/
theorem satisfied_by_short_circuits_witness :
    run_query (⟨subjOwn, 5, kSingle, "text", .VALUE⟩ : MetadataQuery)
        (DEFAULT_HOOKS 2) [] =
      run_query (⟨subjOwn, 5, kSingle, "text", .VALUE⟩ : MetadataQuery)
        [metadata_from_strand_sets] [] :=
  (satisfied_by_short_circuits _ [] 2 _ _ eOwn).2 rfl rfl (by decide)
    (Or.inl ⟨rfl, rfl⟩)

/-!  ### Claim C2 — `run_query` joins the successful hooks' answers  -/

/-- The outcome of each hook of a chain on the query, `none` marking a
declined hook, with the cache threaded through successes exactly as the
runner threads it (a declined hook leaves it unchanged). -/
def hookOutcomes (q : MetadataQuery) : List HookFn → Cache → List (Option PyVal)
  | [], _ => []
  | h :: rest, c =>
      match h q c with
      | .ok (v, c') => some v :: hookOutcomes q rest c'
      | .error _ => none :: hookOutcomes q rest c

/-- Left fold of `join` over the later successes, with the first
success as the seed; an unsupported operand pair is a `TypeError`. -/
def foldJoin (q : MetadataQuery) (acc : PyVal) : List PyVal → Except RunError PyVal
  | [] => .ok acc
  | v :: rest =>
      match q.join acc v with
      | some r => foldJoin q r rest
      | none => .error .typeError

/-- The spec's hook contract: a hook either produces an answer or
declines with the local not-applicable signal (`HookFailureError`). -/
def wellBehaved (h : HookFn) : Prop :=
  ∀ q c, (∃ r, h q c = .ok r) ∨ h q c = .error .hookFailure


theorem join_of_satisfied (q : MetadataQuery) (r v : PyVal)
    (hs : q.satisfied_by r = true) : q.join r v = some r := by
  unfold MetadataQuery.satisfied_by at hs
  split_ifs at hs with h1 h2
  · obtain ⟨hqt, hmul⟩ := h1
    simp [MetadataQuery.join, hqt, hmul]
  · obtain ⟨hqt, hr⟩ := h2
    subst hr
    simp [MetadataQuery.join, hqt, pyLogicalOr, PyVal.truthy]

theorem foldJoin_of_satisfied (q : MetadataQuery) (r : PyVal)
    (vs : List PyVal) (hs : q.satisfied_by r = true) :
    foldJoin q r vs = .ok r := by
  induction vs with
  | nil => rfl
  | cons v rest ih => simp [foldJoin, join_of_satisfied q r v hs, ih]

theorem foldJoin_cons (q : MetadataQuery) (r v : PyVal) (vs : List PyVal)
    (r' : PyVal) (hj : q.join r v = some r') :
    foldJoin q r (v :: vs) = foldJoin q r' vs := by
  simp [foldJoin, hj]

theorem foldJoin_ne_queryFailure (q : MetadataQuery) (vs : List PyVal)
    (a : PyVal) : foldJoin q a vs ≠ .error .queryFailure := by
  induction vs generalizing a with
  | nil => simp [foldJoin]
  | cons v rest ih =>
      simp only [foldJoin]
      cases q.join a v with
      | none => simp
      | some r => simpa using ih r

theorem runResult_eq_error (x : Except RunError (PyVal × Cache))
    (e : RunError) : runResult x = .error e ↔ x = .error e := by
  cases x with
  | error e' => simp [runResult, Except.map]
  | ok r => simp [runResult, Except.map]

theorem runLoop_cons_ok_await (q : MetadataQuery) (h : HookFn)
    (rest : List HookFn) (c : Cache) (r : PyVal) (v : PyVal) (c' : Cache)
    (hok : h q c = .ok (v, c')) :
    runLoop q (h :: rest) c r true =
      (if q.satisfied_by v then
        .ok (v, cacheSet c' q.cache_key v q.key.cache_duration)
      else runLoop q rest c' v false) := by
  simp [runLoop, hok]

theorem runLoop_cons_ok_join (q : MetadataQuery) (h : HookFn)
    (rest : List HookFn) (c : Cache) (r : PyVal) (v : PyVal) (c' : Cache)
    (r' : PyVal) (hok : h q c = .ok (v, c')) (hj : q.join r v = some r') :
    runLoop q (h :: rest) c r false =
      (if q.satisfied_by r' then
        .ok (r', cacheSet c' q.cache_key r' q.key.cache_duration)
      else runLoop q rest c' r' false) := by
  simp [runLoop, hok, hj]

theorem runLoop_cons_ok_join_none (q : MetadataQuery) (h : HookFn)
    (rest : List HookFn) (c : Cache) (r : PyVal) (v : PyVal) (c' : Cache)
    (hok : h q c = .ok (v, c')) (hj : q.join r v = none) :
    runLoop q (h :: rest) c r false = .error .typeError := by
  simp [runLoop, hok, hj]

theorem runLoop_cons_declined (q : MetadataQuery) (h : HookFn)
    (rest : List HookFn) (c : Cache) (r : PyVal) (aw : Bool)
    (herr : h q c = .error .hookFailure) :
    runLoop q (h :: rest) c r aw = runLoop q rest c r aw := by
  simp [runLoop, herr]

theorem hookOutcomes_cons_ok (q : MetadataQuery) (h : HookFn)
    (rest : List HookFn) (c : Cache) (v : PyVal) (c' : Cache)
    (hok : h q c = .ok (v, c')) :
    hookOutcomes q (h :: rest) c = some v :: hookOutcomes q rest c' := by
  simp [hookOutcomes, hok]

theorem hookOutcomes_cons_declined (q : MetadataQuery) (h : HookFn)
    (rest : List HookFn) (c : Cache)
    (herr : h q c = .error .hookFailure) :
    hookOutcomes q (h :: rest) c = none :: hookOutcomes q rest c := by
  simp [hookOutcomes, herr]

theorem runLoop_result_noawait (q : MetadataQuery) (hooks : List HookFn) :
    ∀ (c : Cache) (r : PyVal),
      (∀ h ∈ hooks, wellBehaved h) →
      runResult (runLoop q hooks c r false) =
        foldJoin q r ((hookOutcomes q hooks c).filterMap id) := by
  induction hooks with
  | nil =>
      intro c r _
      simp [runLoop, hookOutcomes, foldJoin, runResult, Except.map]
  | cons h rest ih =>
      intro c r hwb
      have hrest : ∀ h' ∈ rest, wellBehaved h' :=
        fun h' hh' => hwb h' (List.mem_cons_of_mem h hh')
      rcases hwb h (List.mem_cons_self h rest) q c with ⟨⟨v, c'⟩, hok⟩ | herr
      · rw [hookOutcomes_cons_ok q h rest c v c' hok]
        simp only [List.filterMap_cons, id_eq]
        cases hj : q.join r v with
        | none =>
            rw [runLoop_cons_ok_join_none q h rest c r v c' hok hj]
            simp [foldJoin, hj, runResult, Except.map]
        | some r' =>
            rw [runLoop_cons_ok_join q h rest c r v c' r' hok hj,
              foldJoin_cons q r v _ r' hj]
            by_cases hs : q.satisfied_by r' = true
            · rw [if_pos hs, foldJoin_of_satisfied q r' _ hs]
              simp [runResult, Except.map]
            · rw [if_neg hs]
              exact ih c' r' hrest
      · rw [runLoop_cons_declined q h rest c r false herr,
          hookOutcomes_cons_declined q h rest c herr]
        simp only [List.filterMap_cons, id_eq]
        exact ih c r hrest

theorem runLoop_result_await (q : MetadataQuery) (hooks : List HookFn) :
    ∀ (c : Cache) (r : PyVal),
      (∀ h ∈ hooks, wellBehaved h) →
      runResult (runLoop q hooks c r true) =
        (match (hookOutcomes q hooks c).filterMap id with
         | [] => .error .queryFailure
         | v :: vs => foldJoin q v vs) := by
  induction hooks with
  | nil =>
      intro c r _
      simp [runLoop, hookOutcomes, runResult, Except.map]
  | cons h rest ih =>
      intro c r hwb
      have hrest : ∀ h' ∈ rest, wellBehaved h' :=
        fun h' hh' => hwb h' (List.mem_cons_of_mem h hh')
      rcases hwb h (List.mem_cons_self h rest) q c with ⟨⟨v, c'⟩, hok⟩ | herr
      · rw [runLoop_cons_ok_await q h rest c r v c' hok,
          hookOutcomes_cons_ok q h rest c v c' hok]
        simp only [List.filterMap_cons, id_eq]
        by_cases hs : q.satisfied_by v = true
        · rw [if_pos hs, foldJoin_of_satisfied q v _ hs]
          simp [runResult, Except.map]
        · rw [if_neg hs]
          exact runLoop_result_noawait q rest c' v hrest
      · rw [runLoop_cons_declined q h rest c r true herr,
          hookOutcomes_cons_declined q h rest c herr]
        simp only [List.filterMap_cons, id_eq]
        exact ih c r hrest

/-- Claim C2: for every query and every hook chain satisfying the hook
contract, `run_query` raises `QueryFailureError` exactly when every hook
declines; otherwise its result is the combination, in chain order, of the
successful hooks' answers — the first success taken as-is and each later
success merged through `query.join` with the accumulated result as the
old argument. -/
theorem run_query_joins_successes (q : MetadataQuery) (hooks : List HookFn)
    (c : Cache) (hwb : ∀ h ∈ hooks, wellBehaved h) :
    (run_query q hooks c = .error .queryFailure ↔
      ∀ o ∈ hookOutcomes q hooks c, o = none) ∧
    (∀ v vs, (hookOutcomes q hooks c).filterMap id = v :: vs →
      runResult (run_query q hooks c) = foldJoin q v vs) := by
  have hmain := runLoop_result_await q hooks c q.initial_state hwb
  unfold run_query
  constructor
  · cases houts : (hookOutcomes q hooks c).filterMap id with
    | nil =>
        rw [houts] at hmain
        constructor
        · intro _ o ho
          have := List.filterMap_eq_nil_iff.mp houts o ho
          simpa using this
        · intro _
          exact (runResult_eq_error _ _).mp hmain
    | cons v vs =>
        rw [houts] at hmain
        constructor
        · intro hfail
          have hre : runResult (runLoop q hooks c q.initial_state true) =
              .error .queryFailure := by
            rw [hfail]
            rfl
          rw [hmain] at hre
          exact absurd hre (foldJoin_ne_queryFailure q vs v)
        · intro hall
          have hnil : (hookOutcomes q hooks c).filterMap id = [] := by
            rw [List.filterMap_eq_nil_iff]
            intro o ho
            simp [hall o ho]
          rw [hnil] at houts
          cases houts
  · intro v vs houts
    rw [houts] at hmain
    exact hmain

theorem get_strand_set_cases (q : MetadataQuery) :
    (∃ sd, get_strand_set q = .ok sd) ∨
      get_strand_set q = .error .hookFailure := by
  rcases hs : q.subject.strands with _ | m
  · exact Or.inr (by simp [get_strand_set, hs])
  · rcases hl : List.lookup q.strand m with _ | sd
    · exact Or.inr (by simp [get_strand_set, hs, hl])
    · exact Or.inl ⟨sd, by simp [get_strand_set, hs, hl]⟩

theorem handle_set_cases (m : List Entry) (am : Bool) (qt : QueryType) :
    (∃ v, handle_set m am qt = .ok v) ∨
      handle_set m am qt = .error .hookFailure := by
  unfold handle_set
  cases qt with
  | VALUE =>
      cases am with
      | true => exact Or.inl ⟨_, rfl⟩
      | false =>
          cases hl : latestEntry m with
          | none =>
              refine Or.inr ?_
              simp [hl]
          | some e =>
              refine Or.inl ⟨.pstr e.value, ?_⟩
              simp [hl]
  | COUNT => exact Or.inl ⟨_, rfl⟩
  | EXISTS => exact Or.inl ⟨_, rfl⟩

theorem metadata_from_strand_sets_wellBehaved :
    wellBehaved metadata_from_strand_sets := by
  intro q c
  rcases get_strand_set_cases q with ⟨sd, hsd⟩ | hsd
  · rcases handle_set_cases (get_active_metadata sd.entries q.key q.date)
        q.key.allow_multiple q.query_type with ⟨v, hv⟩ | hv
    · exact Or.inl ⟨(v, c), by simp [metadata_from_strand_sets, hsd, hv]⟩
    · exact Or.inr (by simp [metadata_from_strand_sets, hsd, hv])
  · exact Or.inr (by simp [metadata_from_strand_sets, hsd])

/-- The single-value VALUE query against `subjOwn` used as a concrete
witness input. -/
def qOwnSingle : MetadataQuery := ⟨subjOwn, 5, kSingle, "text", .VALUE⟩

/-- Witness for C2: the own-strands hook answers the `subjOwn` query and
`run_query` returns exactly that single success. -/
theorem run_query_joins_successes_witness :
    runResult (run_query qOwnSingle [metadata_from_strand_sets] []) =
      .ok (.pstr "moof") := by
  have hwb : ∀ h ∈ [metadata_from_strand_sets], wellBehaved h := by
    intro h hh
    rw [List.mem_singleton] at hh
    subst hh
    exact metadata_from_strand_sets_wellBehaved
  have h := (run_query_joins_successes qOwnSingle [metadata_from_strand_sets]
    [] hwb).2 (.pstr "moof") [] (by decide)
  rw [h]
  rfl

/-!  ### Claims C1 and C3 — the broken fall-through of the default chain  -/

/-- A package carrying a default value for `single` in its `text` strand.
Packages answer `metadata_parent()` with `None` (the mixin default) and
have no `packages` attribute. -/
def pkgWithValue : Subject :=
  Subject.mk "Package" 10 (some [("text", ⟨[⟨1, "pkg-val", 0, none⟩], []⟩)])
    (some none) none

/-- A parent subject with an empty `text` strand and nothing else. -/
def parentEmpty : Subject :=
  Subject.mk "Thing" 2 (some [("text", ⟨[], []⟩)]) (some none) none

/-- A parent subject whose `text` strand carries `parent-val` for the
key `single`. -/
def parentWithValue : Subject :=
  Subject.mk "Thing" 2 (some [("text", ⟨[⟨1, "parent-val", 0, none⟩], []⟩)])
    (some none) none

/-- The C1 failing input: a subject with no own entry for `single`, a
parent that also has none anywhere, and a package (active at every date)
that does provide a value. -/
def subjC1 : Subject :=
  Subject.mk "Thing" 1 (some [("text", ⟨[], []⟩)]) (some (some parentEmpty))
    (some (some [PackageEntry.mk 0 none pkgWithValue]))

/-- `subjC1` with the parent link set to `None`, so that the parent hook
declines locally instead of recursing. -/
def subjC1noParent : Subject :=
  Subject.mk "Thing" 1 (some [("text", ⟨[], []⟩)]) (some none)
    (some (some [PackageEntry.mk 0 none pkgWithValue]))

/-- A subject with no own entry whose parent carries `parent-val`. -/
def subjC1parentHasValue : Subject :=
  Subject.mk "Thing" 1 (some [("text", ⟨[], []⟩)])
    (some (some parentWithValue)) none

/-- Claim C1 (code bug): with no own entry, resolution does return the
parent's value when the parent has one; but when subject and parent both
lack the key and an attached active package provides a default, the run
aborts with `QueryFailureError` — raised by the nested parent run and
caught nowhere, since `run_query` catches only `HookFailureError` —
instead of falling through to the package hook.  Removing the parent
(so that the parent hook declines locally) makes the same package value
resolve, pinning the abort on the uncaught nested failure. -/
theorem parent_chain_aborts_instead_of_package_fallback :
    runResult (runQueryDefault
        ⟨subjC1parentHasValue, 5, kSingle, "text", .VALUE⟩ []) =
      .ok (.pstr "parent-val") ∧
    runResult (runQueryDefault ⟨subjC1, 5, kSingle, "text", .VALUE⟩ []) =
      .error .queryFailure ∧
    runResult (runQueryDefault ⟨subjC1noParent, 5, kSingle, "text", .VALUE⟩ []) =
      .ok (.pstr "pkg-val") := by
  refine ⟨?_, ?_, ?_⟩ <;> decide

/-- An attachment whose package has an empty `text` strand. -/
def pkgEmpty : Subject :=
  Subject.mk "Package" 20 (some [("text", ⟨[], []⟩)]) (some none) none

/-- The C3 failing input: two active attachments; the first package
cannot answer, the second can. -/
def subjC3 : Subject :=
  Subject.mk "Thing" 3 (some [("text", ⟨[], []⟩)]) none
    (some (some [PackageEntry.mk 0 none pkgEmpty,
                 PackageEntry.mk 0 none pkgWithValue]))

/-- `subjC3` with only the answering attachment. -/
def subjC3onlySecond : Subject :=
  Subject.mk "Thing" 3 (some [("text", ⟨[], []⟩)]) none
    (some (some [PackageEntry.mk 0 none pkgWithValue]))

/-- Claim C3 (code bug): the package hook should accept the first
attachment whose recursive run yields a non-failing result; instead, the
first attachment's failing recursive run raises `QueryFailureError`,
which the `except HookFailureError` clause does not catch, so the whole
query aborts rather than moving to the second attachment — whose package
does resolve when it is the only attachment. -/
theorem package_loop_aborts_on_failing_attachment :
    runResult (runQueryDefault ⟨subjC3, 5, kSingle, "text", .VALUE⟩ []) =
      .error .queryFailure ∧
    runResult (runQueryDefault ⟨subjC3onlySecond, 5, kSingle, "text", .VALUE⟩ []) =
      .ok (.pstr "pkg-val") := by
  refine ⟨?_, ?_⟩ <;> decide

/-!  ### Claim C10 — default resolution never reads the cache  -/

/-- A hook whose result (success value or error kind, the final cache
state aside) does not depend on the cache it is given. -/
def cacheBlind (h : HookFn) : Prop :=
  ∀ q c1 c2, runResult (h q c1) = runResult (h q c2)

theorem runLoop_cons_error (q : MetadataQuery) (h : HookFn)
    (rest : List HookFn) (c : Cache) (r : PyVal) (aw : Bool) (e : RunError)
    (hne : e ≠ .hookFailure) (h1 : h q c = .error e) :
    runLoop q (h :: rest) c r aw = .error e := by
  cases e with
  | hookFailure => exact absurd rfl hne
  | queryFailure => simp [runLoop, h1]
  | typeError => simp [runLoop, h1]
  | depthExhausted => simp [runLoop, h1]

theorem metadata_from_strand_sets_cacheBlind :
    cacheBlind metadata_from_strand_sets := by
  intro q c1 c2
  rcases get_strand_set_cases q with ⟨sd, hsd⟩ | hsd
  · rcases handle_set_cases (get_active_metadata sd.entries q.key q.date)
        q.key.allow_multiple q.query_type with ⟨v, hv⟩ | hv
    · simp [metadata_from_strand_sets, hsd, hv, runResult, Except.map]
    · simp [metadata_from_strand_sets, hsd, hv, runResult, Except.map]
  · simp [metadata_from_strand_sets, hsd, runResult, Except.map]

theorem metadata_from_default_cacheBlind :
    cacheBlind metadata_from_default := by
  intro q c1 c2
  rcases get_strand_set_cases q with ⟨sd, hsd⟩ | hsd
  · rcases handle_set_cases (get_active_metadata sd.modelDefaults q.key q.date)
        q.key.allow_multiple q.query_type with ⟨v, hv⟩ | hv
    · simp [metadata_from_default, hsd, hv, runResult, Except.map]
    · simp [metadata_from_default, hsd, hv, runResult, Except.map]
  · simp [metadata_from_default, hsd, runResult, Except.map]

theorem runLoop_cacheBlind (q : MetadataQuery) (hooks : List HookFn)
    (hcb : ∀ h ∈ hooks, cacheBlind h) :
    ∀ (c1 c2 : Cache) (r : PyVal) (aw : Bool),
      runResult (runLoop q hooks c1 r aw) =
        runResult (runLoop q hooks c2 r aw) := by
  induction hooks with
  | nil =>
      intro c1 c2 r aw
      cases aw <;> simp [runLoop, runResult, Except.map]
  | cons h rest ih =>
      intro c1 c2 r aw
      have hrest : ∀ h' ∈ rest, cacheBlind h' :=
        fun h' m => hcb h' (List.mem_cons_of_mem h m)
      have heq := hcb h (List.mem_cons_self h rest) q c1 c2
      cases h1 : h q c1 with
      | error e1 =>
          cases h2 : h q c2 with
          | error e2 =>
              have he : e1 = e2 := by
                rw [h1, h2] at heq
                simpa [runResult, Except.map] using heq
              subst he
              by_cases hhf : e1 = RunError.hookFailure
              · subst hhf
                rw [runLoop_cons_declined q h rest c1 r aw h1,
                  runLoop_cons_declined q h rest c2 r aw h2]
                exact ih hrest c1 c2 r aw
              · rw [runLoop_cons_error q h rest c1 r aw e1 hhf h1,
                  runLoop_cons_error q h rest c2 r aw e1 hhf h2]
          | ok p =>
              rw [h1, h2] at heq
              obtain ⟨v2, c2'⟩ := p
              simp [runResult, Except.map] at heq
      | ok p1 =>
          obtain ⟨v1, c1'⟩ := p1
          cases h2 : h q c2 with
          | error e2 =>
              rw [h1, h2] at heq
              simp [runResult, Except.map] at heq
          | ok p2 =>
              obtain ⟨v2, c2'⟩ := p2
              have hv : v1 = v2 := by
                rw [h1, h2] at heq
                simpa [runResult, Except.map] using heq
              subst hv
              cases aw with
              | true =>
                  rw [runLoop_cons_ok_await q h rest c1 r v1 c1' h1,
                    runLoop_cons_ok_await q h rest c2 r v1 c2' h2]
                  by_cases hs : q.satisfied_by v1 = true
                  · rw [if_pos hs, if_pos hs]
                    simp [runResult, Except.map]
                  · rw [if_neg hs, if_neg hs]
                    exact ih hrest c1' c2' v1 false
              | false =>
                  cases hj : q.join r v1 with
                  | none =>
                      rw [runLoop_cons_ok_join_none q h rest c1 r v1 c1' h1 hj,
                        runLoop_cons_ok_join_none q h rest c2 r v1 c2' h2 hj]
                  | some r' =>
                      rw [runLoop_cons_ok_join q h rest c1 r v1 c1' r' h1 hj,
                        runLoop_cons_ok_join q h rest c2 r v1 c2' r' h2 hj]
                      by_cases hs : q.satisfied_by r' = true
                      · rw [if_pos hs, if_pos hs]
                        simp [runResult, Except.map]
                      · rw [if_neg hs, if_neg hs]
                        exact ih hrest c1' c2' r' false

theorem run_query_cacheBlind (q : MetadataQuery) (hooks : List HookFn)
    (hcb : ∀ h ∈ hooks, cacheBlind h) (c1 c2 : Cache) :
    runResult (run_query q hooks c1) = runResult (run_query q hooks c2) :=
  runLoop_cacheBlind q hooks hcb c1 c2 q.initial_state true

theorem packageLoop_cacheBlind (hooks : List HookFn)
    (hcb : ∀ h ∈ hooks, cacheBlind h) :
    ∀ (l : List PackageEntry) (q : MetadataQuery) (c1 c2 : Cache),
      runResult (packageLoop (some hooks) l q c1) =
        runResult (packageLoop (some hooks) l q c2) := by
  intro l
  induction l with
  | nil => intro q c1 c2; rfl
  | cons e rest ih =>
      intro q c1 c2
      have heq := run_query_cacheBlind (q.replaceSubject e.package) hooks hcb c1 c2
      cases h1 : run_query (q.replaceSubject e.package) hooks c1 with
      | error e1 =>
          cases h2 : run_query (q.replaceSubject e.package) hooks c2 with
          | error e2 =>
              have he : e1 = e2 := by
                rw [h1, h2] at heq
                simpa [runResult, Except.map] using heq
              subst he
              by_cases hhf : e1 = RunError.hookFailure
              · subst hhf
                simpa [packageLoop, h1, h2] using ih q c1 c2
              · cases e1 with
                | hookFailure => exact absurd rfl hhf
                | queryFailure => simp [packageLoop, h1, h2]
                | typeError => simp [packageLoop, h1, h2]
                | depthExhausted => simp [packageLoop, h1, h2]
          | ok p =>
              rw [h1, h2] at heq
              obtain ⟨v2, c2'⟩ := p
              simp [runResult, Except.map] at heq
      | ok p1 =>
          obtain ⟨v1, c1'⟩ := p1
          cases h2 : run_query (q.replaceSubject e.package) hooks c2 with
          | error e2 =>
              rw [h1, h2] at heq
              simp [runResult, Except.map] at heq
          | ok p2 =>
              obtain ⟨v2, c2'⟩ := p2
              have hv : v1 = v2 := by
                rw [h1, h2] at heq
                simpa [runResult, Except.map] using heq
              subst hv
              simp [packageLoop, h1, h2, runResult, Except.map]

theorem default_hooks_cacheBlind :
    ∀ fuel : Nat, ∀ h ∈ DEFAULT_HOOKS fuel, cacheBlind h := by
  intro fuel
  induction fuel with
  | zero =>
      intro h hm
      simp only [DEFAULT_HOOKS, List.mem_cons, List.mem_singleton,
        List.not_mem_nil, or_false] at hm
      rcases hm with rfl | rfl | rfl | rfl
      · exact metadata_from_strand_sets_cacheBlind
      · intro q c1 c2
        cases hp : q.subject.parent with
        | none => simp [metadata_from_parent, hp]
        | some po =>
            cases po with
            | none => simp [metadata_from_parent, hp]
            | some p => simp [metadata_from_parent, hp]
      · intro q c1 c2
        cases hp : q.subject.packages with
        | none => simp [metadata_from_package, hp]
        | some po =>
            cases po with
            | none => simp [metadata_from_package, hp]
            | some l =>
                cases hl : attachmentsAt l q.date with
                | nil => simp [metadata_from_package, hp, hl, packageLoop]
                | cons e rest =>
                    simp [metadata_from_package, hp, hl, packageLoop]
      · exact metadata_from_default_cacheBlind
  | succ f ihf =>
      intro h hm
      simp only [DEFAULT_HOOKS, List.mem_cons, List.mem_singleton,
        List.not_mem_nil, or_false] at hm
      rcases hm with rfl | rfl | rfl | rfl
      · exact metadata_from_strand_sets_cacheBlind
      · intro q c1 c2
        cases hp : q.subject.parent with
        | none => simp [metadata_from_parent, hp]
        | some po =>
            cases po with
            | none => simp [metadata_from_parent, hp]
            | some p =>
                simpa [metadata_from_parent, hp] using
                  run_query_cacheBlind (q.replaceSubject p)
                    (DEFAULT_HOOKS f) ihf c1 c2
      · intro q c1 c2
        cases hp : q.subject.packages with
        | none => simp [metadata_from_package, hp]
        | some po =>
            cases po with
            | none => simp [metadata_from_package, hp]
            | some l =>
                simpa [metadata_from_package, hp] using
                  packageLoop_cacheBlind (DEFAULT_HOOKS f) ihf
                    (attachmentsAt l q.date) q c1 c2
      · exact metadata_from_default_cacheBlind

/-- Claim C10: with the default hook list — from which the cache-reading
hook `metadata_from_cache` is absent (a `TODO` in the source) — the
outcome of `run_query` does not depend on the contents of the cache
store: two runs that differ only in the initial cache produce the same
result (the chain only writes the cache on success, it never reads
it). -/
theorem default_resolution_independent_of_cache (fuel : Nat)
    (q : MetadataQuery) (c1 c2 : Cache) :
    runResult (run_query q (DEFAULT_HOOKS fuel) c1) =
      runResult (run_query q (DEFAULT_HOOKS fuel) c2) :=
  run_query_cacheBlind q (DEFAULT_HOOKS fuel)
    (default_hooks_cacheBlind fuel) c1 c2

/-!  ### Claim C6 — active ranges and latest-wins resolution  -/

theorem insertByFromDesc_ne_nil (e : Entry) (l : List Entry) :
    insertByFromDesc e l ≠ [] := by
  cases l with
  | nil => simp [insertByFromDesc]
  | cons x xs =>
      simp only [insertByFromDesc]
      by_cases h : x.effective_from ≤ e.effective_from <;> simp [h]

theorem sortByFromDesc_eq_nil (l : List Entry) :
    sortByFromDesc l = [] ↔ l = [] := by
  cases l with
  | nil => simp [sortByFromDesc]
  | cons x xs =>
      simp only [sortByFromDesc]
      constructor
      · intro h
        exact absurd h (insertByFromDesc_ne_nil x (sortByFromDesc xs))
      · intro h
        cases h

/-- Claim C6: for a single-value key, (a) the view's filter pipeline
keeps an entry exactly when its key matches and `effective_from ≤ D` and
`effective_to` is null or `D < effective_to`; hence (b) an entry with
`effective_to = E` is inactive at every `D ≥ E`; and resolution at `D` —
(c) through the strand view and (d) through `handle_set` on the hooks'
active set — returns the value of the active entry with the strictly
largest `effective_from` (latest wins). -/
theorem single_value_latest_wins (entries : List Entry) (key : MetadataKey)
    (d : Nat) (e : Entry) (tE : Nat) (reg : List MetadataKey) (s : Subject)
    (fuel : Nat) (strand : String) (kref : KeyRef)
    (strand_sets : List (String × StrandSet)) (sd : StrandSet) :
    (∀ x, x ∈ viewActive entries key d ↔
      (x ∈ entries ∧ x.keyId = key.id ∧ x.effective_from ≤ d ∧
        (x.effective_to = none ∨ ∃ t, x.effective_to = some t ∧ d < t))) ∧
    (e.effective_to = some tE → tE ≤ d → e ∉ viewActive entries key d) ∧
    (s.strands = some strand_sets →
      strand_sets.lookup strand = some sd →
      MetadataKey.get reg kref = some key →
      key.allow_multiple = false →
      e ∈ viewActive sd.entries key d →
      (∀ x ∈ viewActive sd.entries key d,
        x = e ∨ x.effective_from < e.effective_from) →
      StrandView.getitem fuel reg s d strand kref = .ok (.pstr e.value)) ∧
    (e ∈ get_active_metadata entries key d →
      (∀ x ∈ get_active_metadata entries key d,
        x = e ∨ x.effective_from < e.effective_from) →
      handle_set (get_active_metadata entries key d) false .VALUE =
        .ok (.pstr e.value)) := by
  have hspec : ∀ x, x ∈ viewActive entries key d ↔
      (x ∈ entries ∧ x.keyId = key.id ∧ x.effective_from ≤ d ∧
        (x.effective_to = none ∨ ∃ t, x.effective_to = some t ∧ d < t)) := by
    intro x
    simp only [viewActive, List.mem_filter, Bool.and_eq_true, decide_eq_true_eq,
      Bool.not_eq_true']
    constructor
    · rintro ⟨⟨hx, hk, hf⟩, hto⟩
      refine ⟨hx, hk, hf, ?_⟩
      cases hx2 : x.effective_to with
      | none => exact Or.inl rfl
      | some t =>
          right
          refine ⟨t, rfl, ?_⟩
          rw [hx2] at hto
          simp only [decide_eq_false_iff_not] at hto
          omega
    · rintro ⟨hx, hk, hf, hto⟩
      refine ⟨⟨hx, hk, hf⟩, ?_⟩
      rcases hto with hnone | ⟨t, ht, hlt⟩
      · simp [hnone]
      · simp only [ht, decide_eq_false_iff_not]
        omega
  refine ⟨hspec, ?_, ?_, ?_⟩
  · intro hto hEd hmem
    rcases (hspec e).mp hmem with ⟨_, _, _, hcase⟩
    rcases hcase with hnone | ⟨t, ht, hlt⟩
    · rw [hto] at hnone
      cases hnone
    · rw [hto] at ht
      cases ht
      omega
  · intro hst hlk hget hmul hmem hmax
    have hl : latestEntry (sortByFromDesc (viewActive sd.entries key d)) =
        some e := by
      apply latestEntry_eq_max
      · exact (mem_sortByFromDesc e _).mpr hmem
      · intro x hx
        exact hmax x ((mem_sortByFromDesc x _).mp hx)
    cases fuel with
    | zero =>
        simp [StrandView.getitem, StrandView.getitemBody, hst, hlk, hget,
          hmul, hl]
    | succ f =>
        simp [StrandView.getitem, StrandView.getitemBody, hst, hlk, hget,
          hmul, hl]
  · intro hmem hmax
    have hl := latestEntry_eq_max _ e hmem hmax
    simp [handle_set, hl]

/-- The effective-range scenario entries of the test fixtures:
`zillyhoo` (2005–2010), `moof` (2010, open), `bank` (2015–2030), `wello`
(2030, open). -/
def entriesEff : List Entry :=
  [⟨1, "zillyhoo", 2005, some 2010⟩, ⟨1, "moof", 2010, none⟩,
   ⟨1, "bank", 2015, some 2030⟩, ⟨1, "wello", 2030, none⟩]

/-- A subject carrying the effective-range scenario in its `text`
strand. -/
def subjEff : Subject :=
  Subject.mk "Thing" 5 (some [("text", ⟨entriesEff, []⟩)]) (some none) none

/-- Witness for C6: at 2020 the view resolves `single` to `bank` — the
entry with the largest `effective_from` among the non-expired ones. -/
theorem single_value_latest_wins_witness :
    StrandView.getitem 1 regFix subjEff 2020 "text" (.byKey kSingle) =
      .ok (.pstr "bank") :=
  (single_value_latest_wins entriesEff kSingle 2020 ⟨1, "bank", 2015, some 2030⟩
      0 regFix subjEff 1 "text" (.byKey kSingle) _ _).2.2.1
    rfl rfl rfl rfl (by decide) (by decide)

/-!  ### Claim C7 — membership on unresolvable keys  -/

/-- A parent that does not expose the `text` strand. -/
def parentNoText : Subject :=
  Subject.mk "Parent" 8 (some [("other", ⟨[], []⟩)]) (some none) none

/-- The C7 counterexample subject: it has the `text` strand (empty) and a
parent lacking that strand. -/
def subjC7 : Subject :=
  Subject.mk "Thing" 7 (some [("text", ⟨[], []⟩)]) (some (some parentNoText))
    none

/-- Counterexample to claim C7: for a valid single-value key with no
resolvable value (the lookup raises `KeyError`), the membership test does
not yield `False` — it raises `KeyError` as well, because the inherit
chain indexes the parent's view with a strand the parent does not
have. -/
theorem contains_raises_on_parent_without_strand :
    MetadataView.getitem regFix subjC7 5 "text" (.byKey kSingle) =
      .error .keyError ∧
    MetadataView.contains regFix subjC7 5 "text" (.byKey kSingle) =
      .error .keyError := by
  refine ⟨?_, ?_⟩ <;> decide

/-- The query strand is exposed by the subject and by every ancestor
reachable through `metadata_parent` links. -/
inductive StrandThroughChain (strand : String) : Subject → Prop where
  | intro (s : Subject) (m : List (String × StrandSet)) (sd : StrandSet) :
      s.strands = some m → m.lookup strand = some sd →
      (∀ p, s.parent = some (some p) → StrandThroughChain strand p) →
      StrandThroughChain strand s

/-- Claim C7 (amended): for a valid single-value key, when every subject
along the parent chain exposes the strand, a lookup failure (`KeyError`,
no resolvable value) is translated by the membership test into `False`
rather than propagated; when an ancestor lacks the strand, both lookup
and membership instead raise `KeyError` (see the counterexample). -/
theorem contains_false_on_unresolvable (strand : String)
    (reg : List MetadataKey) (kref : KeyRef) (key : MetadataKey)
    (fuel : Nat) (s : Subject) (d : Nat)
    (hchain : StrandThroughChain strand s)
    (hget : MetadataKey.get reg kref = some key)
    (hmul : key.allow_multiple = false)
    (hfail : StrandView.getitem fuel reg s d strand kref = .error .keyError) :
    StrandView.contains fuel reg s d strand kref = .ok false := by
  induction hchain generalizing fuel d with
  | intro s m sd hst hlk hpar ih =>
      cases fuel with
      | zero =>
          simp only [StrandView.getitem, StrandView.getitemBody, hst, hlk,
            hget, hmul, Bool.false_eq_true, if_false] at hfail
          cases hl : latestEntry (sortByFromDesc (viewActive sd.entries key d)) with
          | some e => simp [hl] at hfail
          | none =>
              simp only [hl] at hfail
              have hve : viewActive sd.entries key d = [] :=
                (sortByFromDesc_eq_nil _).mp ((latestEntry_eq_none_iff _).mp hl)
              simp only [StrandView.contains, StrandView.containsBody, hst,
                hlk, hget, hmul, Bool.false_eq_true, if_false, hve]
              rcases hp : s.parent with _ | po
              · simp [inherit_peek, hp]
              · rcases po with _ | p
                · simp [inherit_peek, hp]
                · simp [inherit_value, hp] at hfail
      | succ f =>
          simp only [StrandView.getitem, StrandView.getitemBody, hst, hlk,
            hget, hmul, Bool.false_eq_true, if_false] at hfail
          cases hl : latestEntry (sortByFromDesc (viewActive sd.entries key d)) with
          | some e => simp [hl] at hfail
          | none =>
              simp only [hl] at hfail
              have hve : viewActive sd.entries key d = [] :=
                (sortByFromDesc_eq_nil _).mp ((latestEntry_eq_none_iff _).mp hl)
              simp only [StrandView.contains, StrandView.containsBody, hst,
                hlk, hget, hmul, Bool.false_eq_true, if_false, hve]
              rcases hp : s.parent with _ | po
              · simp [inherit_peek, hp]
              · rcases po with _ | p
                · simp [inherit_peek, hp]
                · simp only [inherit_value, hp] at hfail
                  simp only [inherit_peek, hp]
                  exact ih p hp f d hfail

/-- A parent that does expose the `text` strand (empty). -/
def parentWithText : Subject :=
  Subject.mk "Parent" 11 (some [("text", ⟨[], []⟩)]) (some none) none

/-- A subject whose whole parent chain exposes `text`, with no entry for
`single` anywhere. -/
def subjC7ok : Subject :=
  Subject.mk "Thing" 9 (some [("text", ⟨[], []⟩)]) (some (some parentWithText))
    none

/-- Witness for the amended C7: on a chain that exposes the strand
throughout, the failing lookup turns into membership `False`. -/
theorem contains_false_on_unresolvable_witness :
    StrandView.getitem 2 regFix subjC7ok 5 "text" (.byKey kSingle) =
      .error .keyError ∧
    StrandView.contains 2 regFix subjC7ok 5 "text" (.byKey kSingle) =
      .ok false := by
  have hchain : StrandThroughChain "text" subjC7ok := by
    refine .intro _ _ _ rfl rfl ?_
    intro p hp
    injection hp with hp1
    injection hp1 with hp2
    subst hp2
    refine .intro _ _ _ rfl rfl ?_
    intro p2 hp2
    injection hp2 with hq1
    injection hq1
  exact ⟨by decide,
    contains_false_on_unresolvable "text" regFix (.byKey kSingle) kSingle 2
      subjC7ok 5 hchain rfl rfl (by decide)⟩
